import Mathlib

/-
Verification of the fitness-evaluation engine of the pyNSGP multi-tree
symbolic-regression framework (pynsgp/Fitness/FitnessFunction.py).

Machine floating-point values are embedded as exact rationals extended with
the three IEEE special values nan, +inf and -inf; decimal literals of the
source (1e-10, the interpretability coefficients) are read as the rationals
they denote.  numpy reductions (np.sum, np.mean, np.var, np.cov) are embedded
with their documented formulas: np.var divides by N, np.cov by N - 1.
-/

/-- An embedded float value: not-a-number, +infinity, -infinity, or a finite
value represented exactly as a rational. -/
inductive FV where
  | nan : FV
  | pinf : FV
  | ninf : FV
  | fin : ℚ → FV
deriving DecidableEq

/-- IEEE-style test for not-a-number. -/
def FV.isnan : FV → Bool
  | .nan => true
  | _ => false

/-- IEEE-style negation. -/
def FV.neg : FV → FV
  | .nan => .nan
  | .pinf => .ninf
  | .ninf => .pinf
  | .fin q => .fin (-q)

/-- IEEE-style addition: nan propagates, inf + (-inf) = nan. -/
def FV.add : FV → FV → FV
  | .nan, _ => .nan
  | .pinf, .nan => .nan
  | .pinf, .pinf => .pinf
  | .pinf, .ninf => .nan
  | .pinf, .fin _ => .pinf
  | .ninf, .nan => .nan
  | .ninf, .pinf => .nan
  | .ninf, .ninf => .ninf
  | .ninf, .fin _ => .ninf
  | .fin _, .nan => .nan
  | .fin _, .pinf => .pinf
  | .fin _, .ninf => .ninf
  | .fin p, .fin q => .fin (p + q)

/-- IEEE-style subtraction. -/
def FV.sub (x y : FV) : FV := FV.add x (FV.neg y)

/-- IEEE-style multiplication: nan propagates, inf * 0 = nan, signs follow
the sign rule. -/
def FV.mul : FV → FV → FV
  | .nan, _ => .nan
  | .pinf, .nan => .nan
  | .pinf, .pinf => .pinf
  | .pinf, .ninf => .ninf
  | .pinf, .fin q => if q < 0 then .ninf else if q = 0 then .nan else .pinf
  | .ninf, .nan => .nan
  | .ninf, .pinf => .ninf
  | .ninf, .ninf => .pinf
  | .ninf, .fin q => if q < 0 then .pinf else if q = 0 then .nan else .ninf
  | .fin _, .nan => .nan
  | .fin p, .pinf => if p < 0 then .ninf else if p = 0 then .nan else .pinf
  | .fin p, .ninf => if p < 0 then .pinf else if p = 0 then .nan else .ninf
  | .fin p, .fin q => .fin (p * q)

/-- IEEE-style division: nan propagates, inf/inf = nan, finite/0 follows the
sign of the numerator (0/0 = nan), finite/inf = 0.  Signed zeros are not
modelled (the source never produces a negative zero on these paths). -/
def FV.div : FV → FV → FV
  | .nan, _ => .nan
  | .pinf, .nan => .nan
  | .pinf, .pinf => .nan
  | .pinf, .ninf => .nan
  | .pinf, .fin q => if q < 0 then .ninf else .pinf
  | .ninf, .nan => .nan
  | .ninf, .pinf => .nan
  | .ninf, .ninf => .nan
  | .ninf, .fin q => if q < 0 then .pinf else .ninf
  | .fin _, .nan => .nan
  | .fin _, .pinf => .fin 0
  | .fin _, .ninf => .fin 0
  | .fin p, .fin q =>
      if q = 0 then (if p = 0 then .nan else if p < 0 then .ninf else .pinf)
      else .fin (p / q)

/-- IEEE-style strict comparison: any comparison involving nan is false. -/
def FV.lt : FV → FV → Bool
  | .nan, _ => false
  | _, .nan => false
  | .ninf, .ninf => false
  | .ninf, _ => true
  | .pinf, _ => false
  | .fin _, .ninf => false
  | .fin _, .pinf => true
  | .fin p, .fin q => decide (p < q)

/-- np.sum over a sequence of embedded floats (left fold from 0). -/
def FV.sum (l : List FV) : FV := l.foldl FV.add (FV.fin 0)

/-- np.mean: sum divided by length (empty mean is 0/0 = nan, as in numpy). -/
def FV.mean (l : List FV) : FV := FV.div (FV.sum l) (FV.fin (l.length : ℚ))

/-- np.var with the default ddof = 0: mean of squared deviations from the
mean. -/
def FV.varP (l : List FV) : FV :=
  FV.mean (l.map (fun x => FV.mul (FV.sub x (FV.mean l)) (FV.sub x (FV.mean l))))

/-- The off-diagonal entry np.cov(x, y)[0, 1] with the default ddof = 1:
sum of products of deviations, divided by N - 1 where N = len(x). -/
def FV.cov (x y : List FV) : FV :=
  FV.div
    (FV.sum (List.zipWith
      (fun a b => FV.mul (FV.sub a (FV.mean x)) (FV.sub b (FV.mean y))) x y))
    (FV.fin ((x.length : ℚ) - 1))

/-- Modelled from the spec: the node layer (pynsgp/Nodes) is outside the
provided source.  A node's observable shape, per the spec's data model, is
one of: an operator, a variable leaf naming an input dimension, a constant
leaf, or a `FeatureNode` leaf referencing a sub-function by integer index. -/
inductive NodeKind where
  | opK : NodeKind
  | varK : Nat → NodeKind
  | constK : NodeKind
  | feature : Nat → NodeKind
deriving DecidableEq

/-- Modelled from the spec: a node as consumed by the evaluator — it exposes
`arity`, the `is_not_arithmetic` flag, and its kind (the kind stands for the
Python class of the node together with its name-encoded index, which is all
the evaluator inspects via `isinstance`, `str(n)` and `node.id`). -/
structure Node where
  arity : Nat
  is_not_arithmetic : Bool
  kind : NodeKind
deriving DecidableEq

/-- Modelled from the spec: one expression tree as consumed by the evaluator:
its flattened subtree (`GetSubtree()`), its non-arithmetic-composition count
(`Count_n_nacomp()`), and the mutable affine-scaling fields `ls_a`, `ls_b`. -/
structure TreeFun where
  GetSubtree : List Node
  Count_n_nacomp : Nat
  ls_a : FV
  ls_b : FV

/-- Modelled from the spec: a single-tree individual: one tree plus its
forward evaluation `GetOutput(X) -> vector`, consumed as given. -/
structure SingleTreeData where
  GetSubtree : List Node
  Count_n_nacomp : Nat
  GetOutput : List (List ℚ) → List FV
  ls_a : FV
  ls_b : FV

/-- Modelled from the spec: a `MultiTreeIndividual`: superior functions (one
per output channel), shared sub-functions, and the combined forward
evaluation `GetOutput(X) -> N x K matrix`, consumed as given. -/
structure MultiTreeData where
  sup_functions : List TreeFun
  sub_functions : List TreeFun
  GetOutput : List (List ℚ) → List (List FV)

/-- Derived count of output channels (`num_sup_functions`). -/
def MultiTreeData.num_sup_functions (d : MultiTreeData) : Nat :=
  d.sup_functions.length

/-- Derived count of shared sub-functions (`num_sub_functions`). -/
def MultiTreeData.num_sub_functions (d : MultiTreeData) : Nat :=
  d.sub_functions.length

/-- The two representation variants dispatched on by
`isinstance(individual, MultiTreeIndividual)`. -/
inductive IndRep where
  | single : SingleTreeData → IndRep
  | multi : MultiTreeData → IndRep

/-- An individual: its representation plus the mutable `objectives` list the
evaluator rewrites on every call. -/
structure Individual where
  rep : IndRep
  objectives : List FV

/-- The training targets: a vector for single-output use, an N x K matrix for
multi-output use (the caller passes whichever matches its individuals). -/
inductive YData where
  | vec : List ℚ → YData
  | mat : List (List ℚ) → YData

/-- The two pluggable cost methods of the evaluator.  Their bodies are in
the source — `stress_cost` samples a batch of `X_train` seeded by the
evaluation counter and sums the absolute differences of two scipy `pdist`
distance matrices; `neural_decoder_fitness` trains a fixed keras decoder on
the tree output and reads off its best loss — but both compute through
external numeric libraries that are not embedded here, so the two methods
enter the model as opaque float-valued parameters of the development.  The
codomain is the full float type `FV`: every float the real methods can
return, including a nan cost for invalid tree output (neither method guards
with `np.isnan`), remains representable.  Exceptions raised inside the
external routines are outside the model. -/
structure Strategies where
  stress_cost : Individual → Nat → FV
  neural_decoder_fitness : Individual → Nat → FV

/-- The evaluator state: training data, configuration flags, the elite slot
and the evaluation counter (class SymbolicRegressionFitness). -/
structure SymbolicRegressionFitness where
  X_train : List (List ℚ)
  y_train : YData
  use_linear_scaling : Bool
  use_interpretability_model : Bool
  fitness : String
  elite : Option Individual
  evaluations : Nat

/-- The constructor `SymbolicRegressionFitness.__init__`: stores the configuration verbatim
(no validation of the fitness mode), with no elite and a zero counter. -/
def SymbolicRegressionFitness.mk0 (X_train : List (List ℚ)) (y_train : YData)
    (use_linear_scaling : Bool) (use_interpretability_model : Bool)
    (fitness : String) : SymbolicRegressionFitness :=
  { X_train := X_train
    y_train := y_train
    use_linear_scaling := use_linear_scaling
    use_interpretability_model := use_interpretability_model
    fitness := fitness
    elite := none
    evaluations := 0 }

/-- The small epsilon 1e-10 guarding near-zero variance in linear scaling. -/
def lsEps : ℚ := 1 / 10000000000

/-- The shared linear-scaling-plus-MSE computation applied to one target
vector `yq` and one raw output vector `o` (the body that
`__EvaluateMeanSquaredErrorOfNormalTree` performs once and
`__EvaluateMeanSquaredErrorOfMultiTree` performs per channel): returns
`(a, b, fit_error)` where, with scaling on,
`b = np.cov(y, output)[0,1] / (np.var(output) + 1e-10)` and
`a = np.mean(y) - b * np.mean(output)`, and otherwise `a = 0, b = 1`;
`fit_error = np.mean(np.square(y - (a + b * output)))`. -/
def FVtreeMSE (uls : Bool) (yq : List ℚ) (o : List FV) : FV × FV × FV :=
  let yf := yq.map FV.fin
  let ab : FV × FV :=
    match uls with
    | true =>
        let b := FV.div (FV.cov yf o) (FV.add (FV.varP o) (FV.fin lsEps))
        let a := FV.sub (FV.mean yf) (FV.mul b (FV.mean o))
        (a, b)
    | false => (FV.fin 0, FV.fin 1)
  let scaled := o.map (fun oi => FV.add ab.1 (FV.mul ab.2 oi))
  let err := FV.mean (List.zipWith
    (fun t s => FV.mul (FV.sub t s) (FV.sub t s)) yf scaled)
  (ab.1, ab.2, err)

/-- The method `__EvaluateMeanSquaredErrorOfNormalTree`: one `GetOutput(X_train)` call,
an optional linear-scaling fit stored into `ls_a`/`ls_b`, and the mean
squared difference between the (optionally scaled) output and `y_train`. -/
def EvaluateMeanSquaredErrorOfNormalTree (X : List (List ℚ)) (yv : List ℚ)
    (uls : Bool) (d : SingleTreeData) : FV × SingleTreeData :=
  let o := d.GetOutput X
  let r := FVtreeMSE uls yv o
  (r.2.2,
    match uls with
    | true => { d with ls_a := r.1, ls_b := r.2.1 }
    | false => d)

/-- The method `__EvaluateMeanSquaredErrorOfMultiTree`: one combined `GetOutput(X_train)`
call; per output channel `i < num_sup_functions`, a linear-scaling fit against
column i of `y_train` stored into `sup_functions[i].ls_a`/`.ls_b` and a
per-channel MSE; the aggregate error is `np.mean` of the per-channel MSEs.
Column extraction `m[:, i]` is embedded as a row-wise indexed read (the
defaults are never reached on well-formed matrices). -/
def EvaluateMeanSquaredErrorOfMultiTree (X : List (List ℚ))
    (ym : List (List ℚ)) (uls : Bool) (d : MultiTreeData) :
    FV × MultiTreeData :=
  let output := d.GetOutput X
  let results := (List.range d.num_sup_functions).map (fun i =>
    FVtreeMSE uls (ym.map (fun row => row.getD i 0))
      (output.map (fun row => row.getD i FV.nan)))
  let sups := List.zipWith
    (fun sf r =>
      match uls with
      | true => { sf with ls_a := r.1, ls_b := r.2.1 }
      | false => sf)
    d.sup_functions results
  let fit_errors := results.map (fun r => r.2.2)
  (FV.mean fit_errors, { d with sup_functions := sups })

/-- The method `EvaluateMeanSquaredError`: dispatches on the representation variant,
then replaces a not-a-number error with positive infinity.  The target data
must match the variant (a mismatch is not a supported configuration). -/
def EvaluateMeanSquaredError (X : List (List ℚ)) (y : YData) (uls : Bool)
    (r : IndRep) : Option (FV × IndRep) :=
  match r, y with
  | IndRep.multi d, YData.mat ym =>
      let p := EvaluateMeanSquaredErrorOfMultiTree X ym uls d
      some (if p.1.isnan then FV.pinf else p.1, IndRep.multi p.2)
  | IndRep.single d, YData.vec yv =>
      let p := EvaluateMeanSquaredErrorOfNormalTree X yv uls d
      some (if p.1.isnan then FV.pinf else p.1, IndRep.single p.2)
  | _, _ => none

/-- The method `EvaluateLength`: single tree — number of nodes of the flattened subtree;
multi-tree in mode "gp_autoencoder_fitness" — np.sum of the sub-function
subtree sizes only; multi-tree otherwise — over every node of every
sup_function's flattened subtree, a `FeatureNode` contributes the precomputed
size of the sub-function it references when `num_sub_functions > 0`, and
every other node contributes 1. -/
def EvaluateLength (fitness : String) (r : IndRep) : Nat :=
  match r with
  | IndRep.multi d =>
      let len_subfunctions := d.sub_functions.map (fun x => x.GetSubtree.length)
      if fitness = "gp_autoencoder_fitness" then
        len_subfunctions.sum
      else
        (d.sup_functions.map (fun sup =>
          (sup.GetSubtree.map (fun node =>
            match node.kind with
            | NodeKind.feature i =>
                if 0 < d.num_sub_functions then len_subfunctions.getD i 0 else 1
            | _ => 1)).sum)).sum
  | IndRep.single d => d.GetSubtree.length

/-- The method `_ComputeInterpretabilityScore`: the fixed pretrained linear model
`100 * (c0*n_nodes + c1*n_ops + c2*na_ops + c3*na_comp)` with coefficients
[-0.00195041, -0.00502375, -0.03351907, -0.04472121]; `n_dim`, `n_vars` and
`n_const` are accepted but unused, as in the source. -/
def ComputeInterpretabilityScore (n_dim n_vars n_const n_nodes n_ops na_ops
    na_comp : Nat) : ℚ :=
  ((n_nodes : ℚ) * (-195041 / 100000000) + (n_ops : ℚ) * (-502375 / 100000000)
    + (na_ops : ℚ) * (-3351907 / 100000000)
    + (na_comp : ℚ) * (-4472121 / 100000000)) * 100

/-- The running structural counts of the classification loop of
`__EvaluatePHIsModelOfNormalTree`. -/
structure PhiCounts where
  n_ops : Nat
  n_naops : Nat
  n_vars : Nat
  dims : Finset Nat
  n_constants : Nat

/-- One iteration of the classification loop: a node with positive arity is
an operator (further counted as non-arithmetic when flagged so); otherwise a
leaf whose printed form starts with 'x' is a variable naming an input
dimension, and any other leaf is a constant. -/
def phiStep (c : PhiCounts) (n : Node) : PhiCounts :=
  if 0 < n.arity then
    { c with
      n_ops := c.n_ops + 1
      n_naops := if n.is_not_arithmetic then c.n_naops + 1 else c.n_naops }
  else
    match n.kind with
    | NodeKind.varK idx =>
        { c with n_vars := c.n_vars + 1, dims := insert idx c.dims }
    | _ => { c with n_constants := c.n_constants + 1 }

/-- The method `__EvaluatePHIsModelOfNormalTree` on one tree, given its flattened
subtree and its `Count_n_nacomp()` value: collects the structural counts,
applies the fixed model and negates the result. -/
def EvaluatePHIsModelOfNormalTree (subtree : List Node) (n_nacomp : Nat) : ℚ :=
  let n_nodes := subtree.length
  let c := subtree.foldl phiStep ⟨0, 0, 0, ∅, 0⟩
  let result :=
    ComputeInterpretabilityScore c.dims.card c.n_vars c.n_constants n_nodes
      c.n_ops c.n_naops n_nacomp
  (-1 : ℚ) * result

/-- The method `EvaluatePHIsModel`: a single tree is scored directly; a multi-tree
individual receives the np.sum of the per-tree scores over all sup_functions
followed by all sub_functions, each scored from its own local statistics. -/
def EvaluatePHIsModel (r : IndRep) : ℚ :=
  match r with
  | IndRep.multi d =>
      (d.sup_functions.map
          (fun f => EvaluatePHIsModelOfNormalTree f.GetSubtree f.Count_n_nacomp)
        ++ d.sub_functions.map
          (fun f => EvaluatePHIsModelOfNormalTree f.GetSubtree
            f.Count_n_nacomp)).sum
  | IndRep.single d =>
      EvaluatePHIsModelOfNormalTree d.GetSubtree d.Count_n_nacomp

/-- The if/elif chain of `Evaluate` that selects objective[0] per the
configured fitness mode; an unrecognized mode selects nothing (in the source,
obj1 is then left unbound). -/
def selectObj1 (S : Strategies) (self : SymbolicRegressionFitness)
    (ind0 : Individual) (evals : Nat) : Option (FV × IndRep) :=
  if self.fitness = "manifold_fitness" then
    some (S.stress_cost ind0 evals, ind0.rep)
  else if self.fitness = "neural_decoder_fitness" then
    some (S.neural_decoder_fitness ind0 evals, ind0.rep)
  else if self.fitness = "autoencoder_teacher_fitness"
      ∨ self.fitness = "gp_autoencoder_fitness" then
    EvaluateMeanSquaredError self.X_train self.y_train
      self.use_linear_scaling ind0.rep
  else none

/-- The method `Evaluate(individual)`: increments the counter, resets `objectives`,
computes objective[0] per the configured fitness mode (an unrecognized mode
leaves obj1 unbound and the call fails), computes objective[1] as the
interpretability score or the length, appends both, and replaces the elite
with a deep copy of the individual iff the elite is absent or the new
objective[0] is strictly smaller than the elite's. -/
def Evaluate (S : Strategies) (self : SymbolicRegressionFitness)
    (individual : Individual) : Option (SymbolicRegressionFitness × Individual) :=
  let evals := self.evaluations + 1
  let ind0 : Individual := { individual with objectives := [] }
  let obj1rep : Option (FV × IndRep) := selectObj1 S self ind0 evals
  match obj1rep with
  | none => none
  | some (obj1, rep1) =>
      let obj2 : FV :=
        match self.use_interpretability_model with
        | true => FV.fin (EvaluatePHIsModel rep1)
        | false => FV.fin ((EvaluateLength self.fitness rep1 : Nat) : ℚ)
      let ind1 : Individual := { rep := rep1, objectives := [obj1, obj2] }
      let elite1 : Option Individual :=
        match self.elite with
        | none => some ind1
        | some e =>
            if FV.lt obj1 (e.objectives.headD FV.nan) then some ind1 else some e
      some ({ self with evaluations := evals, elite := elite1 }, ind1)

theorem FV.add_nan_left (x : FV) : FV.add FV.nan x = FV.nan := rfl

theorem FV.add_nan_right (x : FV) : FV.add x FV.nan = FV.nan := by
  cases x <;> rfl

theorem FV.sub_nan_right (x : FV) : FV.sub x FV.nan = FV.nan := by
  cases x <;> rfl

theorem FV.mul_nan_left (x : FV) : FV.mul FV.nan x = FV.nan := rfl

theorem FV.mul_nan_right (x : FV) : FV.mul x FV.nan = FV.nan := by
  cases x <;> rfl

theorem FV.div_nan_left (x : FV) : FV.div FV.nan x = FV.nan := rfl

theorem FV.foldl_add_nan (l : List FV) : l.foldl FV.add FV.nan = FV.nan := by
  induction l with
  | nil => rfl
  | cons a t ih => simpa [List.foldl_cons, FV.add_nan_left] using ih

theorem FV.sum_eq_nan_of_mem {l : List FV} (h : FV.nan ∈ l) :
    FV.sum l = FV.nan := by
  unfold FV.sum
  generalize FV.fin 0 = acc
  induction l generalizing acc with
  | nil => cases h
  | cons a t ih =>
      rcases List.mem_cons.mp h with ha | ht
      · subst ha
        simp [List.foldl_cons, FV.add_nan_right, FV.foldl_add_nan]
      · exact ih ht _

theorem FV.mean_eq_nan_of_mem {l : List FV} (h : FV.nan ∈ l) :
    FV.mean l = FV.nan := by
  unfold FV.mean
  rw [FV.sum_eq_nan_of_mem h]
  rfl

/-- The values a (numpy) mean of squares can take: nan, +inf, or a
nonnegative finite value. -/
def FV.isMSEVal (x : FV) : Prop :=
  x = FV.nan ∨ x = FV.pinf ∨ ∃ q, x = FV.fin q ∧ 0 ≤ q

theorem FV.isMSEVal_sq (x : FV) : FV.isMSEVal (FV.mul x x) := by
  cases x with
  | nan => exact Or.inl rfl
  | pinf => exact Or.inr (Or.inl rfl)
  | ninf => exact Or.inr (Or.inl rfl)
  | fin q => exact Or.inr (Or.inr ⟨q * q, rfl, mul_self_nonneg q⟩)

theorem FV.isMSEVal_add {x y : FV} (hx : FV.isMSEVal x) (hy : FV.isMSEVal y) :
    FV.isMSEVal (FV.add x y) := by
  rcases hx with hx | hx | ⟨p, hx, hp⟩ <;>
    rcases hy with hy | hy | ⟨q, hy, hq⟩ <;> subst hx <;> subst hy
  · exact Or.inl rfl
  · exact Or.inl rfl
  · exact Or.inl rfl
  · exact Or.inl rfl
  · exact Or.inr (Or.inl rfl)
  · exact Or.inr (Or.inl rfl)
  · exact Or.inl rfl
  · exact Or.inr (Or.inl rfl)
  · exact Or.inr (Or.inr ⟨p + q, rfl, add_nonneg hp hq⟩)

theorem FV.isMSEVal_foldl_add : ∀ (l : List FV) (acc : FV),
    FV.isMSEVal acc → (∀ x ∈ l, FV.isMSEVal x) →
    FV.isMSEVal (l.foldl FV.add acc)
  | [], _, hacc, _ => hacc
  | a :: t, acc, hacc, h =>
      FV.isMSEVal_foldl_add t (FV.add acc a)
        (FV.isMSEVal_add hacc (h a (List.mem_cons_self a t)))
        (fun x hx => h x (List.mem_cons_of_mem a hx))

theorem FV.isMSEVal_sum {l : List FV} (h : ∀ x ∈ l, FV.isMSEVal x) :
    FV.isMSEVal (FV.sum l) :=
  FV.isMSEVal_foldl_add l (FV.fin 0) (Or.inr (Or.inr ⟨0, rfl, le_refl 0⟩)) h

theorem FV.isMSEVal_div_nat {x : FV} (n : Nat) (hx : FV.isMSEVal x) :
    FV.isMSEVal (FV.div x (FV.fin (n : ℚ))) := by
  rcases hx with hx | hx | ⟨q, hx, hq⟩ <;> subst hx
  · exact Or.inl rfl
  · simp only [FV.div]
    have : ¬ ((n : ℚ) < 0) := not_lt.mpr (Nat.cast_nonneg n)
    simp [this]
    exact Or.inr (Or.inl rfl)
  · simp only [FV.div]
    by_cases hn : (n : ℚ) = 0
    · simp only [hn, if_pos rfl]
      by_cases hq0 : q = 0
      · simp [hq0]
        exact Or.inl rfl
      · have : ¬ (q < 0) := not_lt.mpr hq
        simp [hq0, this]
        exact Or.inr (Or.inl rfl)
    · simp only [if_neg hn]
      exact Or.inr (Or.inr ⟨q / n, rfl, div_nonneg hq (Nat.cast_nonneg n)⟩)

theorem FV.isMSEVal_mean {l : List FV} (h : ∀ x ∈ l, FV.isMSEVal x) :
    FV.isMSEVal (FV.mean l) :=
  FV.isMSEVal_div_nat l.length (FV.isMSEVal_sum h)

theorem mem_zipWith_sq {f : FV → FV → FV} {as bs : List FV} {x : FV}
    (hf : ∀ a b, FV.isMSEVal (f a b))
    (hx : x ∈ List.zipWith f as bs) : FV.isMSEVal x := by
  induction as generalizing bs with
  | nil => cases hx
  | cons a as ih =>
      cases bs with
      | nil => cases hx
      | cons b bs =>
          rcases List.mem_cons.mp hx with h | h
          · subst h; exact hf a b
          · exact ih h

theorem FVtreeMSE_isMSEVal (uls : Bool) (yq : List ℚ) (o : List FV) :
    FV.isMSEVal (FVtreeMSE uls yq o).2.2 := by
  unfold FVtreeMSE
  apply FV.isMSEVal_mean
  intro x hx
  exact mem_zipWith_sq (fun a b => FV.isMSEVal_sq (FV.sub a b)) hx

theorem FV.mean_zip_sq_nan {yf scaled : List FV} {i : Nat}
    (hy : i < yf.length) (hs : i < scaled.length)
    (h : scaled[i] = FV.nan) :
    FV.mean (List.zipWith
      (fun t s => FV.mul (FV.sub t s) (FV.sub t s)) yf scaled) = FV.nan := by
  apply FV.mean_eq_nan_of_mem
  have hzi : i < (List.zipWith
      (fun t s => FV.mul (FV.sub t s) (FV.sub t s)) yf scaled).length := by
    rw [List.length_zipWith]
    omega
  have hval : (List.zipWith
      (fun t s => FV.mul (FV.sub t s) (FV.sub t s)) yf scaled)[i] = FV.nan := by
    rw [List.getElem_zipWith, h, FV.sub_nan_right, FV.mul_nan_left]
  exact hval ▸ List.getElem_mem hzi

theorem FV.cov_nan_right {x y : List FV} (hx : 0 < x.length)
    (hy0 : 0 < y.length) (hy : FV.mean y = FV.nan) :
    FV.cov x y = FV.nan := by
  unfold FV.cov
  have hsum : FV.sum (List.zipWith
      (fun a b => FV.mul (FV.sub a (FV.mean x)) (FV.sub b (FV.mean y)))
      x y) = FV.nan := by
    apply FV.sum_eq_nan_of_mem
    have hzi : 0 < (List.zipWith
        (fun a b => FV.mul (FV.sub a (FV.mean x)) (FV.sub b (FV.mean y)))
        x y).length := by
      rw [List.length_zipWith]
      omega
    have hval : (List.zipWith
        (fun a b => FV.mul (FV.sub a (FV.mean x)) (FV.sub b (FV.mean y)))
        x y)[0] = FV.nan := by
      simp only [List.getElem_zipWith, hy, FV.sub_nan_right, FV.mul_nan_right]
    exact hval ▸ List.getElem_mem hzi
  rw [hsum, FV.div_nan_left]

/-- Not-a-number propagation: when the raw output vector contains a nan and
its length matches the target's, the fit error of the shared
linear-scaling-plus-MSE computation is nan, with or without scaling. -/
theorem FVtreeMSE_nan (uls : Bool) (yq : List ℚ) (o : List FV)
    (h : FV.nan ∈ o) (hl : o.length = yq.length) :
    (FVtreeMSE uls yq o).2.2 = FV.nan := by
  obtain ⟨i, hi, hoi⟩ := List.getElem_of_mem h
  have h0o : 0 < o.length := by omega
  have hyf : (yq.map FV.fin).length = o.length := by
    rw [List.length_map]; omega
  cases uls with
  | true =>
      have hmo : FV.mean o = FV.nan := FV.mean_eq_nan_of_mem h
      have hcov : FV.cov (yq.map FV.fin) o = FV.nan :=
        FV.cov_nan_right (by omega) h0o hmo
      simp only [FVtreeMSE]
      refine FV.mean_zip_sq_nan (i := 0) (by omega) ?_ ?_
      · rw [List.length_map]; omega
      · simp only [List.getElem_map, hcov, FV.div_nan_left, FV.mul_nan_left,
          FV.sub_nan_right, FV.add_nan_left]
  | false =>
      simp only [FVtreeMSE]
      refine FV.mean_zip_sq_nan (i := i) (by omega) ?_ ?_
      · rw [List.length_map]; omega
      · simp only [List.getElem_map, hoi, FV.mul_nan_right, FV.add_nan_right]

theorem EvaluateMeanSquaredErrorOfNormalTree_fst (X : List (List ℚ))
    (yv : List ℚ) (uls : Bool) (d : SingleTreeData) :
    (EvaluateMeanSquaredErrorOfNormalTree X yv uls d).1 =
      (FVtreeMSE uls yv (d.GetOutput X)).2.2 := rfl

theorem EvaluateMeanSquaredErrorOfMultiTree_fst (X : List (List ℚ))
    (ym : List (List ℚ)) (uls : Bool) (d : MultiTreeData) :
    (EvaluateMeanSquaredErrorOfMultiTree X ym uls d).1 =
      FV.mean (((List.range d.num_sup_functions).map (fun i =>
        FVtreeMSE uls (ym.map (fun row => row.getD i 0))
          ((d.GetOutput X).map (fun row => row.getD i FV.nan)))).map
        (fun r => r.2.2)) := rfl

theorem guard_isMSEVal {e : FV} (he : FV.isMSEVal e) :
    (if e.isnan then FV.pinf else e) = FV.pinf ∨
      ∃ q, (if e.isnan then FV.pinf else e) = FV.fin q ∧ 0 ≤ q := by
  rcases he with he | he | ⟨q, he, hq⟩ <;> subst he
  · exact Or.inl rfl
  · exact Or.inl rfl
  · exact Or.inr ⟨q, rfl, hq⟩

theorem EvaluateMeanSquaredErrorOfMultiTree_isMSEVal (X : List (List ℚ))
    (ym : List (List ℚ)) (uls : Bool) (d : MultiTreeData) :
    FV.isMSEVal (EvaluateMeanSquaredErrorOfMultiTree X ym uls d).1 := by
  rw [EvaluateMeanSquaredErrorOfMultiTree_fst]
  apply FV.isMSEVal_mean
  intro x hx
  rcases List.mem_map.mp hx with ⟨r, hr, rfl⟩
  rcases List.mem_map.mp hr with ⟨i, _, rfl⟩
  exact FVtreeMSE_isMSEVal uls _ _

/-- The first objective produced by `EvaluateMeanSquaredError` is never nan:
it is either positive infinity or a nonnegative finite value. -/
theorem EvaluateMeanSquaredError_val {X : List (List ℚ)} {y : YData}
    {uls : Bool} {r : IndRep} {e : FV} {r' : IndRep}
    (h : EvaluateMeanSquaredError X y uls r = some (e, r')) :
    e = FV.pinf ∨ ∃ q, e = FV.fin q ∧ 0 ≤ q := by
  cases r with
  | single d =>
      cases y with
      | vec yv =>
          simp only [EvaluateMeanSquaredError, Option.some.injEq,
            Prod.mk.injEq] at h
          obtain ⟨he, _⟩ := h
          rw [← he]
          apply guard_isMSEVal
          rw [EvaluateMeanSquaredErrorOfNormalTree_fst]
          exact FVtreeMSE_isMSEVal uls yv _
      | mat ym => simp [EvaluateMeanSquaredError] at h
  | multi d =>
      cases y with
      | vec yv => simp [EvaluateMeanSquaredError] at h
      | mat ym =>
          simp only [EvaluateMeanSquaredError, Option.some.injEq,
            Prod.mk.injEq] at h
          obtain ⟨he, _⟩ := h
          rw [← he]
          exact guard_isMSEVal
            (EvaluateMeanSquaredErrorOfMultiTree_isMSEVal X ym uls d)

/-- What a successful `Evaluate` call does to the elite slot: the elite
becomes a copy of the just-evaluated individual iff it was absent or the new
objectives[0] is strictly below the incumbent's; otherwise it is kept. -/
theorem Evaluate_elite_spec {S : Strategies} {s : SymbolicRegressionFitness}
    {ind : Individual} {s' : SymbolicRegressionFitness} {ind' : Individual}
    (h : Evaluate S s ind = some (s', ind')) :
    s'.elite =
      (match s.elite with
      | none => some ind'
      | some e =>
          if FV.lt (ind'.objectives.headD FV.nan) (e.objectives.headD FV.nan)
          then some ind' else some e) := by
  simp only [Evaluate] at h
  split at h
  · exact absurd h (by simp)
  · simp only [Option.some.injEq, Prod.mk.injEq] at h
    obtain ⟨hs, hi⟩ := h
    rw [← hs, ← hi]
    rfl

theorem strATM : (("autoencoder_teacher_fitness" : String) = "manifold_fitness") = False := by
  decide

theorem strATN : (("autoencoder_teacher_fitness" : String) = "neural_decoder_fitness") = False := by
  decide

theorem strATA : (("autoencoder_teacher_fitness" : String) = "autoencoder_teacher_fitness") = True := by
  decide

theorem strATG : (("autoencoder_teacher_fitness" : String) = "gp_autoencoder_fitness") = False := by
  decide

theorem strGAM : (("gp_autoencoder_fitness" : String) = "manifold_fitness") = False := by
  decide

theorem strGAN : (("gp_autoencoder_fitness" : String) = "neural_decoder_fitness") = False := by
  decide

theorem strGAA : (("gp_autoencoder_fitness" : String) = "autoencoder_teacher_fitness") = False := by
  decide

theorem strGAG : (("gp_autoencoder_fitness" : String) = "gp_autoencoder_fitness") = True := by
  decide

theorem strBM : (("bogus_mode" : String) = "manifold_fitness") = False := by decide

theorem strBN : (("bogus_mode" : String) = "neural_decoder_fitness") = False := by decide

theorem strBA : (("bogus_mode" : String) = "autoencoder_teacher_fitness") = False := by decide

theorem strBG : (("bogus_mode" : String) = "gp_autoencoder_fitness") = False := by decide

/-- A constant leaf node used by the concrete test individuals. -/
def cNode : Node := { arity := 0, is_not_arithmetic := false, kind := NodeKind.constK }

/-- Trivial strategies (unused by the mean-squared-error modes). -/
def S0 : Strategies :=
  { stress_cost := fun _ _ => FV.fin 0
    neural_decoder_fitness := fun _ _ => FV.fin 0 }

/-- A concrete single-tree individual with `k` constant nodes (a size tag)
and a fixed output vector. -/
def mkInd (k : Nat) (out : List FV) : Individual :=
  { rep := IndRep.single
      { GetSubtree := List.replicate k cNode
        Count_n_nacomp := 0
        GetOutput := fun _ => out
        ls_a := FV.fin 0
        ls_b := FV.fin 1 }
    objectives := [] }

def c1ind1 : Individual := mkInd 1 [FV.fin 4, FV.fin 2, FV.fin 0, FV.fin 0]

def c1ind2 : Individual := mkInd 2 [FV.fin 2, FV.fin 2, FV.fin 2, FV.fin 0]

def c1ind3 : Individual := mkInd 3 [FV.fin 4, FV.fin 0, FV.fin 0, FV.fin 0]

def c1ind4 : Individual := mkInd 4 [FV.fin 2, FV.fin (-2), FV.fin 2, FV.fin 0]

/-- The evaluator of the elite scenario: targets all zero, scaling and
interpretability off, standard MSE mode; the four individuals above then
reach objective[0] values 5, 3, 4, 3 in evaluation order. -/
def c1fit0 : SymbolicRegressionFitness :=
  SymbolicRegressionFitness.mk0 [] (YData.vec [0, 0, 0, 0]) false false
    "autoencoder_teacher_fitness"

/-- The evaluator state after the four evaluations of the elite scenario. -/
def c1s4 : Option SymbolicRegressionFitness :=
  (Evaluate S0 c1fit0 c1ind1).bind (fun p1 =>
    (Evaluate S0 p1.1 c1ind2).bind (fun p2 =>
      (Evaluate S0 p2.1 c1ind3).bind (fun p3 =>
        (Evaluate S0 p3.1 c1ind4).map (fun p4 => p4.1))))

/-- The copy of the second individual as evaluated (cost 3, size tag 2). -/
def c1elite2 : Individual := { rep := c1ind2.rep, objectives := [FV.fin 3, FV.fin 2] }

/-- The first individual as evaluated (cost 5, size tag 1). -/
def c1e1 : Individual := { rep := c1ind1.rep, objectives := [FV.fin 5, FV.fin 1] }

/-- The evaluator state after the first evaluation of the elite scenario. -/
def c1st1 : SymbolicRegressionFitness :=
  { c1fit0 with evaluations := 1, elite := some c1e1 }

/-- C1: the elite slot is replaced by a copy of the evaluated individual iff
the elite is absent or the just-computed objectives[0] is strictly smaller
than the elite's objectives[0] (ties and worse values leave it unchanged);
and after evaluating four individuals with objective[0] values 5, 3, 4, 3 in
order, the elite is the copy of the individual evaluated second, the
tied fourth not replacing it. -/
theorem C1_elite_replacement :
    (∀ (S : Strategies) (s : SymbolicRegressionFitness) (ind : Individual)
      (s' : SymbolicRegressionFitness) (ind' : Individual),
      Evaluate S s ind = some (s', ind') →
      s'.elite =
        (match s.elite with
        | none => some ind'
        | some e =>
            if FV.lt (ind'.objectives.headD FV.nan) (e.objectives.headD FV.nan)
            then some ind' else some e)) ∧
    c1s4 = some { c1fit0 with evaluations := 4, elite := some c1elite2 } := by
  constructor
  · intro S s ind s' ind' h
    exact Evaluate_elite_spec h
  · norm_num [c1s4, Evaluate, selectObj1, EvaluateMeanSquaredError,
      EvaluateMeanSquaredErrorOfNormalTree, FVtreeMSE, EvaluateLength,
      FV.mean, FV.sum, FV.div, FV.add, FV.mul, FV.sub, FV.neg, FV.isnan,
      FV.lt, c1ind1, c1ind2, c1ind3, c1ind4, mkInd, c1fit0, c1elite2,
      SymbolicRegressionFitness.mk0, strATM, strATN, strATA, strATG,
      List.replicate]

/-- Witness for C1: the first scenario evaluation concretely exercises the
elite-update rule at an absent elite. -/
theorem C1_witness :
    c1st1.elite =
      (match c1fit0.elite with
      | none => some c1e1
      | some e =>
          if FV.lt (c1e1.objectives.headD FV.nan) (e.objectives.headD FV.nan)
          then some c1e1 else some e) :=
  C1_elite_replacement.1 S0 c1fit0 c1ind1 c1st1 c1e1 (by
    norm_num [Evaluate, selectObj1, EvaluateMeanSquaredError,
      EvaluateMeanSquaredErrorOfNormalTree, FVtreeMSE, EvaluateLength,
      FV.mean, FV.sum, FV.div, FV.add, FV.mul, FV.sub, FV.neg, FV.isnan,
      FV.lt, c1ind1, mkInd, c1fit0, c1st1, c1e1,
      SymbolicRegressionFitness.mk0, strATM, strATN, strATA, strATG,
      List.replicate])

/-- C10: whenever the elite slot is absent, a successful `Evaluate`
unconditionally installs a copy of the just-evaluated individual as the
elite, whatever its objectives[0] turned out to be. -/
theorem C10_absent_elite_installed (S : Strategies)
    (s : SymbolicRegressionFitness) (ind : Individual)
    (s' : SymbolicRegressionFitness) (ind' : Individual)
    (h0 : s.elite = none) (h : Evaluate S s ind = some (s', ind')) :
    s'.elite = some ind' := by
  rw [Evaluate_elite_spec h, h0]

def c10fit : SymbolicRegressionFitness :=
  SymbolicRegressionFitness.mk0 [] (YData.vec [0]) false false
    "autoencoder_teacher_fitness"

/-- An individual whose tree output is a single nan. -/
def c10ind : Individual := mkInd 1 [FV.nan]

/-- The nan-output individual as evaluated: objectives[0] is +infinity. -/
def c10e : Individual := { rep := c10ind.rep, objectives := [FV.pinf, FV.fin 1] }

def c10st : SymbolicRegressionFitness :=
  { c10fit with evaluations := 1, elite := some c10e }

/-- Witness for C10: the very first individual ever evaluated becomes the
elite even though its objectives[0] is positive infinity. -/
theorem C10_witness : c10st.elite = some c10e ∧
    c10e.objectives.headD FV.nan = FV.pinf :=
  ⟨C10_absent_elite_installed S0 c10fit c10ind c10st c10e rfl (by
    norm_num [Evaluate, selectObj1, EvaluateMeanSquaredError,
      EvaluateMeanSquaredErrorOfNormalTree, FVtreeMSE, EvaluateLength,
      FV.mean, FV.sum, FV.div, FV.add, FV.mul, FV.sub, FV.neg, FV.isnan,
      FV.lt, c10ind, mkInd, c10fit, c10st, c10e,
      SymbolicRegressionFitness.mk0, strATM, strATN, strATA, strATG,
      List.replicate]), rfl⟩

/-- C9 (divergence witness): `__init__` accepts an unrecognized fitness mode
without any check — construction succeeds and stores the mode verbatim — and
the failure then happens per individual: `Evaluate` finds no branch that
binds obj1 and the call fails (in the source, `individual.objectives.append(obj1)`
raises an unbound-local error) rather than failing fast at construction. -/
theorem C9_unrecognized_mode_fails_in_Evaluate :
    (SymbolicRegressionFitness.mk0 [] (YData.vec [0]) true false
      "bogus_mode").fitness = "bogus_mode" ∧
    Evaluate S0 (SymbolicRegressionFitness.mk0 [] (YData.vec [0]) true false
      "bogus_mode") c10ind = none := by
  constructor
  · rfl
  · norm_num [Evaluate, selectObj1, SymbolicRegressionFitness.mk0, strBM, strBN, strBA,
      strBG]

/-- C3: `EvaluateMeanSquaredError` never returns nan — a not-a-number error
is replaced with positive infinity — and an individual whose tree output
contains a nan value (single-tree, or multi-tree in a used channel) receives
exactly positive infinity as its error. -/
theorem C3_nan_replaced_by_inf :
    (∀ (X : List (List ℚ)) (y : YData) (uls : Bool) (r : IndRep) (e : FV)
      (r' : IndRep), EvaluateMeanSquaredError X y uls r = some (e, r') →
      e ≠ FV.nan) ∧
    (∀ (X : List (List ℚ)) (yv : List ℚ) (uls : Bool) (d : SingleTreeData),
      FV.nan ∈ d.GetOutput X → (d.GetOutput X).length = yv.length →
      ∃ r', EvaluateMeanSquaredError X (YData.vec yv) uls (IndRep.single d) =
        some (FV.pinf, r')) ∧
    (∀ (X : List (List ℚ)) (ym : List (List ℚ)) (uls : Bool)
      (d : MultiTreeData) (j : Nat), j < d.num_sup_functions →
      FV.nan ∈ (d.GetOutput X).map (fun row => row.getD j FV.nan) →
      (d.GetOutput X).length = ym.length →
      ∃ r', EvaluateMeanSquaredError X (YData.mat ym) uls (IndRep.multi d) =
        some (FV.pinf, r')) := by
  refine ⟨?_, ?_, ?_⟩
  · intro X y uls r e r' h
    rcases EvaluateMeanSquaredError_val h with he | ⟨q, he, _⟩ <;> subst he <;>
      simp
  · intro X yv uls d hnan hlen
    have herr : (EvaluateMeanSquaredErrorOfNormalTree X yv uls d).1 = FV.nan := by
      rw [EvaluateMeanSquaredErrorOfNormalTree_fst]
      exact FVtreeMSE_nan uls yv _ hnan hlen
    refine ⟨IndRep.single (EvaluateMeanSquaredErrorOfNormalTree X yv uls d).2, ?_⟩
    simp only [EvaluateMeanSquaredError, herr, FV.isnan, if_true]
  · intro X ym uls d j hj hnan hlen
    have hchan : (FVtreeMSE uls (ym.map (fun row => row.getD j 0))
        ((d.GetOutput X).map (fun row => row.getD j FV.nan))).2.2 = FV.nan := by
      apply FVtreeMSE_nan _ _ _ hnan
      simp [hlen]
    have hmean : (EvaluateMeanSquaredErrorOfMultiTree X ym uls d).1 = FV.nan := by
      rw [EvaluateMeanSquaredErrorOfMultiTree_fst]
      apply FV.mean_eq_nan_of_mem
      have h1 : FVtreeMSE uls (ym.map (fun row => row.getD j 0))
          ((d.GetOutput X).map (fun row => row.getD j FV.nan)) ∈
          (List.range d.num_sup_functions).map (fun i =>
            FVtreeMSE uls (ym.map (fun row => row.getD i 0))
              ((d.GetOutput X).map (fun row => row.getD i FV.nan))) :=
        List.mem_map_of_mem _ (List.mem_range.mpr hj)
      exact List.mem_map.mpr ⟨_, h1, hchan⟩
    refine ⟨IndRep.multi (EvaluateMeanSquaredErrorOfMultiTree X ym uls d).2, ?_⟩
    simp only [EvaluateMeanSquaredError, hmean, FV.isnan, if_true]

/-- A single-tree payload whose output is a single nan. -/
def c3d : SingleTreeData :=
  { GetSubtree := [cNode]
    Count_n_nacomp := 0
    GetOutput := fun _ => [FV.nan]
    ls_a := FV.fin 0
    ls_b := FV.fin 1 }

/-- Witness for C3: a concrete nan-output tree receives exactly +infinity. -/
theorem C3_witness : ∃ r',
    EvaluateMeanSquaredError [] (YData.vec [0]) false (IndRep.single c3d) =
      some (FV.pinf, r') :=
  C3_nan_replaced_by_inf.2.1 [] [0] false c3d (by simp [c3d]) (by simp [c3d])

/-- Successful objective[0] selection determines the whole result of
`Evaluate`: the individual leaves with exactly the two freshly appended
objectives. -/
theorem Evaluate_some_shape {S : Strategies} {s : SymbolicRegressionFitness}
    {ind : Individual} {obj1 : FV} {rep1 : IndRep}
    (h : selectObj1 S s { ind with objectives := [] } (s.evaluations + 1) =
      some (obj1, rep1)) :
    ∃ s', Evaluate S s ind = some (s',
      { rep := rep1
        objectives := [obj1,
          match s.use_interpretability_model with
          | true => FV.fin (EvaluatePHIsModel rep1)
          | false => FV.fin ((EvaluateLength s.fitness rep1 : Nat) : ℚ)] }) := by
  simp only [Evaluate, h]
  exact ⟨_, rfl⟩

/-- A strategy instance returning a nan cost — a float the real `stress_cost`
and keras loss can produce for invalid tree output, since neither method
applies an `np.isnan` guard. -/
def SNaN : Strategies :=
  { stress_cost := fun _ _ => FV.nan
    neural_decoder_fitness := fun _ _ => FV.nan }

/-- An evaluator configured with the manifold fitness mode. -/
def c2fitM : SymbolicRegressionFitness :=
  SymbolicRegressionFitness.mk0 [] (YData.vec [0, 0, 0, 0]) false false
    "manifold_fitness"

/-- Counterexample to C2 as stated: under the `manifold_fitness` mode the
strategy's cost is appended to the objectives unguarded — the
`np.isnan` replacement exists only on the mean-squared-error path — so a nan
strategy cost lands in objectives[0] of the evaluated single-tree
individual, contradicting "neither entry is NaN". -/
theorem C2_counterexample :
    (Evaluate SNaN c2fitM c1ind1).map (fun p => p.2.objectives) =
      some [FV.nan, FV.fin 1] := by
  norm_num [Evaluate, selectObj1, EvaluateLength, SNaN, c2fitM, c1ind1, mkInd,
    SymbolicRegressionFitness.mk0, List.replicate]

/-- C2 (amended): for a valid single-tree individual under either
mean-squared-error mode ("autoencoder_teacher_fitness" or
"gp_autoencoder_fitness"), `Evaluate` succeeds, leaves exactly two
objectives, neither of which is nan (each is finite or +infinity);
objectives[1] is the interpretability score when
`use_interpretability_model` and the length otherwise, and objectives[0]
together with the updated representation is exactly what the configured
fitness mode selected.  (Under the manifold/neural strategy modes the same
two-objective shape arises but objectives[0] is the strategy's float,
appended with no nan guard.) -/
theorem C2_objective_vector (S : Strategies) (s : SymbolicRegressionFitness)
    (ind : Individual) (d : SingleTreeData) (yv : List ℚ)
    (hrep : ind.rep = IndRep.single d) (hy : s.y_train = YData.vec yv)
    (hmode : s.fitness = "autoencoder_teacher_fitness" ∨
      s.fitness = "gp_autoencoder_fitness") :
    ∃ s' ind', Evaluate S s ind = some (s', ind') ∧
      ind'.objectives.length = 2 ∧
      (∀ o ∈ ind'.objectives, o ≠ FV.nan ∧ (o = FV.pinf ∨ ∃ q, o = FV.fin q)) ∧
      ind'.objectives.getD 1 FV.nan =
        (match s.use_interpretability_model with
        | true => FV.fin (EvaluatePHIsModel ind'.rep)
        | false => FV.fin ((EvaluateLength s.fitness ind'.rep : Nat) : ℚ)) ∧
      some (ind'.objectives.getD 0 FV.nan, ind'.rep) =
        selectObj1 S s { ind with objectives := [] } (s.evaluations + 1) := by
  have main : ∀ (obj1 : FV) (rep1 : IndRep),
      selectObj1 S s { ind with objectives := [] } (s.evaluations + 1) =
        some (obj1, rep1) →
      obj1 ≠ FV.nan ∧ (obj1 = FV.pinf ∨ ∃ q, obj1 = FV.fin q) →
      ∃ s' ind', Evaluate S s ind = some (s', ind') ∧
        ind'.objectives.length = 2 ∧
        (∀ o ∈ ind'.objectives, o ≠ FV.nan ∧ (o = FV.pinf ∨ ∃ q, o = FV.fin q)) ∧
        ind'.objectives.getD 1 FV.nan =
          (match s.use_interpretability_model with
          | true => FV.fin (EvaluatePHIsModel ind'.rep)
          | false => FV.fin ((EvaluateLength s.fitness ind'.rep : Nat) : ℚ)) ∧
        some (ind'.objectives.getD 0 FV.nan, ind'.rep) =
          selectObj1 S s { ind with objectives := [] } (s.evaluations + 1) := by
    intro obj1 rep1 hsel hgood
    obtain ⟨s', hEval⟩ := Evaluate_some_shape hsel
    refine ⟨s', _, hEval, rfl, ?_, rfl, hsel.symm⟩
    intro o ho
    rcases List.mem_cons.mp ho with rfl | ho2
    · exact hgood
    · rcases List.mem_cons.mp ho2 with rfl | ho3
      · cases s.use_interpretability_model with
        | true => exact ⟨by simp, Or.inr ⟨_, rfl⟩⟩
        | false => exact ⟨by simp, Or.inr ⟨_, rfl⟩⟩
      · cases ho3
  rcases hmode with hm | hm
  · obtain ⟨e0, r0, hp⟩ : ∃ e0 r0, EvaluateMeanSquaredError s.X_train
        s.y_train s.use_linear_scaling ind.rep = some (e0, r0) := by
      rw [hy, hrep]
      exact ⟨_, _, rfl⟩
    refine main e0 r0 ?_ ?_
    · simp only [selectObj1, hm, strATM, strATN]
      simpa using hp
    · rcases EvaluateMeanSquaredError_val hp with h1 | ⟨q, h1, _⟩
      · exact ⟨by simp [h1], Or.inl h1⟩
      · exact ⟨by simp [h1], Or.inr ⟨q, h1⟩⟩
  · obtain ⟨e0, r0, hp⟩ : ∃ e0 r0, EvaluateMeanSquaredError s.X_train
        s.y_train s.use_linear_scaling ind.rep = some (e0, r0) := by
      rw [hy, hrep]
      exact ⟨_, _, rfl⟩
    refine main e0 r0 ?_ ?_
    · simp only [selectObj1, hm, strGAM, strGAN]
      simpa using hp
    · rcases EvaluateMeanSquaredError_val hp with h1 | ⟨q, h1, _⟩
      · exact ⟨by simp [h1], Or.inl h1⟩
      · exact ⟨by simp [h1], Or.inr ⟨q, h1⟩⟩

/-- Witness for C2 at the concrete elite-scenario evaluator and its first
individual. -/
theorem C2_witness : ∃ s' ind', Evaluate S0 c1fit0 c1ind1 = some (s', ind') ∧
    ind'.objectives.length = 2 ∧
    (∀ o ∈ ind'.objectives, o ≠ FV.nan ∧ (o = FV.pinf ∨ ∃ q, o = FV.fin q)) ∧
    ind'.objectives.getD 1 FV.nan =
      (match c1fit0.use_interpretability_model with
      | true => FV.fin (EvaluatePHIsModel ind'.rep)
      | false => FV.fin ((EvaluateLength c1fit0.fitness ind'.rep : Nat) : ℚ)) ∧
    some (ind'.objectives.getD 0 FV.nan, ind'.rep) =
      selectObj1 S0 c1fit0 { c1ind1 with objectives := [] }
        (c1fit0.evaluations + 1) :=
  C2_objective_vector S0 c1fit0 c1ind1 _ [0, 0, 0, 0] rfl rfl (Or.inl rfl)

/-- C4: with linear scaling enabled, the single-tree error path fits
`b = np.cov(y_train, o)[0,1] / (np.var(o) + 1e-10)` and
`a = np.mean(y_train) - b * np.mean(o)` on the raw output
`o = GetOutput(X_train)`, stores both into `ls_a`/`ls_b`, and returns the
mean of the squared differences between `y_train` and `a + b*o`; with
scaling disabled it uses the identity `a = 0, b = 1` and leaves
`ls_a`/`ls_b` untouched. -/
theorem C4_linear_scaling_fit :
    (∀ (X : List (List ℚ)) (yv : List ℚ) (d : SingleTreeData),
      EvaluateMeanSquaredErrorOfNormalTree X yv true d =
        (let o := d.GetOutput X
         let yf := yv.map FV.fin
         let b := FV.div (FV.cov yf o) (FV.add (FV.varP o) (FV.fin lsEps))
         let a := FV.sub (FV.mean yf) (FV.mul b (FV.mean o))
         (FV.mean (List.zipWith (fun t s => FV.mul (FV.sub t s) (FV.sub t s))
            yf (o.map (fun oi => FV.add a (FV.mul b oi)))),
          { d with ls_a := a, ls_b := b }))) ∧
    (∀ (X : List (List ℚ)) (yv : List ℚ) (d : SingleTreeData),
      EvaluateMeanSquaredErrorOfNormalTree X yv false d =
        (FV.mean (List.zipWith (fun t s => FV.mul (FV.sub t s) (FV.sub t s))
          (yv.map FV.fin)
          ((d.GetOutput X).map (fun oi =>
            FV.add (FV.fin 0) (FV.mul (FV.fin 1) oi)))),
         d)) :=
  ⟨fun _ _ _ => rfl, fun _ _ _ => rfl⟩

/-- C5: the multi-tree error is computed from the single combined output
matrix `GetOutput(X_train)`: for any scaling flag, the aggregate error is the
unweighted np.mean of the per-channel fit errors, each computed on column i
of the output against column i of `y_train`; with scaling enabled, the
fitted per-channel pair `(a, b)` is stored on `sup_functions[i]` (one pair
per sup_function), leaving its other fields untouched. -/
theorem C5_multitree_per_channel (X : List (List ℚ)) (ym : List (List ℚ))
    (d : MultiTreeData) :
    (∀ uls : Bool, (EvaluateMeanSquaredErrorOfMultiTree X ym uls d).1 =
      FV.mean (((List.range d.num_sup_functions).map (fun i =>
        FVtreeMSE uls (ym.map (fun row => row.getD i 0))
          ((d.GetOutput X).map (fun row => row.getD i FV.nan)))).map
        (fun r => r.2.2))) ∧
    (∀ i, i < d.num_sup_functions →
      ((EvaluateMeanSquaredErrorOfMultiTree X ym true d).2.sup_functions)[i]? =
        (d.sup_functions[i]?).map (fun sf =>
          let oi := (d.GetOutput X).map (fun row => row.getD i FV.nan)
          let yi := (ym.map (fun row => row.getD i 0)).map FV.fin
          let b := FV.div (FV.cov yi oi) (FV.add (FV.varP oi) (FV.fin lsEps))
          let a := FV.sub (FV.mean yi) (FV.mul b (FV.mean oi))
          { sf with ls_a := a, ls_b := b })) := by
  constructor
  · intro uls
    exact EvaluateMeanSquaredErrorOfMultiTree_fst X ym uls d
  · intro i hi
    have h1 : i < d.sup_functions.length := hi
    have h2 : i < (List.zipWith
        (fun sf r =>
          match (true : Bool) with
          | true => { sf with ls_a := r.1, ls_b := r.2.1 }
          | false => sf)
        d.sup_functions ((List.range d.num_sup_functions).map (fun j =>
          FVtreeMSE true (ym.map (fun row => row.getD j 0))
            ((d.GetOutput X).map (fun row => row.getD j FV.nan))))).length := by
      rw [List.length_zipWith, List.length_map, List.length_range]
      exact lt_min h1 hi
    rw [show (EvaluateMeanSquaredErrorOfMultiTree X ym true d).2.sup_functions =
        List.zipWith
          (fun sf r =>
            match (true : Bool) with
            | true => { sf with ls_a := r.1, ls_b := r.2.1 }
            | false => sf)
          d.sup_functions ((List.range d.num_sup_functions).map (fun j =>
            FVtreeMSE true (ym.map (fun row => row.getD j 0))
              ((d.GetOutput X).map (fun row => row.getD j FV.nan)))) from rfl]
    rw [List.getElem?_eq_getElem h2, List.getElem?_eq_getElem h1]
    simp only [Option.map_some, List.getElem_zipWith, List.getElem_map,
      List.getElem_range]
    rfl

/-- A concrete one-channel multi-tree individual. -/
def c5d : MultiTreeData :=
  { sup_functions := [{ GetSubtree := [cNode]
                        Count_n_nacomp := 0
                        ls_a := FV.fin 0
                        ls_b := FV.fin 1 }]
    sub_functions := []
    GetOutput := fun _ => [[FV.fin 1], [FV.fin 2]] }

/-- Witness for C5 on the concrete one-channel individual. -/
theorem C5_witness :
    ((EvaluateMeanSquaredErrorOfMultiTree [] [[1], [2]] true c5d).2.sup_functions)[0]? =
      (c5d.sup_functions[0]?).map (fun sf =>
        let oi := (c5d.GetOutput []).map (fun row => row.getD 0 FV.nan)
        let yi := (([[1], [2]] : List (List ℚ)).map
          (fun row => row.getD 0 0)).map FV.fin
        let b := FV.div (FV.cov yi oi) (FV.add (FV.varP oi) (FV.fin lsEps))
        let a := FV.sub (FV.mean yi) (FV.mul b (FV.mean oi))
        { sf with ls_a := a, ls_b := b }) :=
  (C5_multitree_per_channel [] [[1], [2]] c5d).2 0 (by decide)

/-- C6: `EvaluateLength` — a single tree scores its flattened subtree size
whatever the mode; a multi-tree individual in mode "gp_autoencoder_fitness"
scores the sum of the sub-function sizes only; in any other mode it scores,
over all nodes of all sup_function subtrees, the referenced sub-function's
precomputed size for a FeatureNode when `num_sub_functions > 0` and 1 for
every other node (FeatureNodes count 1 when there are no sub-functions). -/
theorem C6_length_modes :
    (∀ (fitness : String) (d : SingleTreeData),
      EvaluateLength fitness (IndRep.single d) = d.GetSubtree.length) ∧
    (∀ d : MultiTreeData,
      EvaluateLength "gp_autoencoder_fitness" (IndRep.multi d) =
        (d.sub_functions.map (fun x => x.GetSubtree.length)).sum) ∧
    (∀ (fitness : String) (d : MultiTreeData),
      fitness ≠ "gp_autoencoder_fitness" →
      EvaluateLength fitness (IndRep.multi d) =
        (((d.sup_functions.map (fun f => f.GetSubtree)).flatten).map (fun node =>
          match node.kind with
          | NodeKind.feature i =>
              if 0 < d.num_sub_functions then
                (d.sub_functions.map (fun x => x.GetSubtree.length)).getD i 0
              else 1
          | _ => 1)).sum) := by
  refine ⟨fun _ _ => rfl, fun d => by simp [EvaluateLength], ?_⟩
  intro fitness d h
  simp only [EvaluateLength, if_neg h]
  rw [List.map_flatten, List.sum_flatten, List.map_map, List.map_map]
  rfl

/-- Witness for C6 at a concrete multi-tree individual in a non-gp mode. -/
theorem C6_witness :
    EvaluateLength "autoencoder_teacher_fitness" (IndRep.multi c5d) =
      (((c5d.sup_functions.map (fun f => f.GetSubtree)).flatten).map (fun node =>
        match node.kind with
        | NodeKind.feature i =>
            if 0 < c5d.num_sub_functions then
              (c5d.sub_functions.map (fun x => x.GetSubtree.length)).getD i 0
            else 1
        | _ => 1)).sum :=
  C6_length_modes.2.2 "autoencoder_teacher_fitness" c5d (by decide)

theorem phiStep_n_ops (c : PhiCounts) (a : Node) :
    (phiStep c a).n_ops = c.n_ops + (if 0 < a.arity then 1 else 0) := by
  by_cases h : 0 < a.arity
  · simp [phiStep, h]
  · cases hk : a.kind <;> simp [phiStep, h, hk]

theorem phiStep_n_naops (c : PhiCounts) (a : Node) :
    (phiStep c a).n_naops =
      c.n_naops + (if 0 < a.arity ∧ a.is_not_arithmetic = true then 1 else 0) := by
  by_cases h : 0 < a.arity
  · by_cases hna : a.is_not_arithmetic = true
    · simp [phiStep, h, hna]
    · simp [phiStep, h, hna]
  · cases hk : a.kind <;> simp [phiStep, h, hk]

theorem phi_foldl_n_ops (l : List Node) (c : PhiCounts) :
    (l.foldl phiStep c).n_ops =
      c.n_ops + l.countP (fun n => decide (0 < n.arity)) := by
  induction l generalizing c with
  | nil => simp
  | cons a t ih =>
      rw [List.foldl_cons, ih, List.countP_cons, phiStep_n_ops]
      by_cases h : 0 < a.arity <;> simp [h] <;> omega

theorem phi_foldl_n_naops (l : List Node) (c : PhiCounts) :
    (l.foldl phiStep c).n_naops =
      c.n_naops + l.countP (fun n => decide (0 < n.arity) && n.is_not_arithmetic) := by
  induction l generalizing c with
  | nil => simp
  | cons a t ih =>
      rw [List.foldl_cons, ih, List.countP_cons, phiStep_n_naops]
      by_cases h : 0 < a.arity <;> by_cases hna : a.is_not_arithmetic = true <;>
        simp [h, hna] <;> omega

/-- C8: the interpretability objective of one tree is the negation of
`100 * (c0*n_nodes + c1*n_ops + c2*n_naops + c3*n_nacomp)` with the fixed
coefficients, where n_nodes is the flattened subtree size, n_ops counts
positive-arity nodes, n_naops those among them flagged non-arithmetic, and
n_nacomp is the tree's own count; a multi-tree individual receives the sum
of the per-tree scores over all sup_functions and all sub_functions, each
from its own local statistics. -/
theorem C8_phi_model :
    (∀ (subtree : List Node) (n_nacomp : Nat),
      EvaluatePHIsModelOfNormalTree subtree n_nacomp =
        -(100 * ((-195041 / 100000000 : ℚ) * subtree.length
          + (-502375 / 100000000 : ℚ) *
              (subtree.countP (fun n => decide (0 < n.arity)))
          + (-3351907 / 100000000 : ℚ) *
              (subtree.countP (fun n => decide (0 < n.arity) && n.is_not_arithmetic))
          + (-4472121 / 100000000 : ℚ) * n_nacomp))) ∧
    (∀ d : MultiTreeData,
      EvaluatePHIsModel (IndRep.multi d) =
        (d.sup_functions.map (fun f =>
          EvaluatePHIsModelOfNormalTree f.GetSubtree f.Count_n_nacomp)).sum +
        (d.sub_functions.map (fun f =>
          EvaluatePHIsModelOfNormalTree f.GetSubtree f.Count_n_nacomp)).sum) ∧
    (∀ d : SingleTreeData, EvaluatePHIsModel (IndRep.single d) =
      EvaluatePHIsModelOfNormalTree d.GetSubtree d.Count_n_nacomp) := by
  refine ⟨?_, ?_, fun d => rfl⟩
  · intro subtree n_nacomp
    simp only [EvaluatePHIsModelOfNormalTree, ComputeInterpretabilityScore]
    rw [phi_foldl_n_ops, phi_foldl_n_naops]
    push_cast
    ring
  · intro d
    simp [EvaluatePHIsModel, List.sum_append]

/-- All nodes of all sup_function flattened subtrees, in walk order. -/
def supNodes (d : MultiTreeData) : List Node :=
  (d.sup_functions.map (fun f => f.GetSubtree)).flatten

/-- Number of reference sites to sub-function j across all sup_functions. -/
def refCount (d : MultiTreeData) (j : Nat) : Nat :=
  (supNodes d).countP (fun n => decide (n.kind = NodeKind.feature j))

theorem EvaluateLength_counted_once (d : MultiTreeData) :
    EvaluateLength "gp_autoencoder_fitness" (IndRep.multi d) =
      (d.sub_functions.map (fun x => x.GetSubtree.length)).sum := by
  simp [EvaluateLength]

theorem EvaluateLength_inlined (fitness : String) (d : MultiTreeData)
    (h : fitness ≠ "gp_autoencoder_fitness") :
    EvaluateLength fitness (IndRep.multi d) =
      ((supNodes d).map (fun node =>
        match node.kind with
        | NodeKind.feature i =>
            if 0 < d.num_sub_functions then
              (d.sub_functions.map (fun x => x.GetSubtree.length)).getD i 0
            else 1
        | _ => 1)).sum := by
  simp only [EvaluateLength, if_neg h, supNodes]
  rw [List.map_flatten, List.sum_flatten, List.map_map, List.map_map]
  rfl

theorem nodeSum_decomp (s : List Nat) (L : List Node)
    (hvalid : ∀ n ∈ L, ∀ j, n.kind = NodeKind.feature j → j < s.length) :
    (L.map (fun node =>
      match node.kind with
      | NodeKind.feature i => s.getD i 0
      | _ => 1)).sum =
    (∑ j ∈ Finset.range s.length,
      L.countP (fun n => decide (n.kind = NodeKind.feature j)) * s.getD j 0)
    + L.countP (fun n =>
        match n.kind with
        | NodeKind.feature _ => false
        | _ => true) := by
  induction L with
  | nil => simp
  | cons a t ih =>
      have ih2 := ih (fun n hn => hvalid n (List.mem_cons_of_mem a hn))
      rw [List.map_cons, List.sum_cons, ih2]
      cases hk : a.kind with
      | feature i =>
          have hi : i < s.length := hvalid a (List.mem_cons_self a t) i hk
          simp only [List.countP_cons, hk, NodeKind.feature.injEq,
            decide_eq_true_eq]
          have hsplit : ∑ j ∈ Finset.range s.length,
              (t.countP (fun n => decide (n.kind = NodeKind.feature j)) +
                if i = j then 1 else 0) * s.getD j 0 =
              (∑ j ∈ Finset.range s.length,
                t.countP (fun n => decide (n.kind = NodeKind.feature j)) *
                  s.getD j 0) +
              ∑ j ∈ Finset.range s.length,
                (if i = j then 1 else 0) * s.getD j 0 := by
            rw [← Finset.sum_add_distrib]
            apply Finset.sum_congr rfl
            intro j _
            ring
          have hone : ∑ j ∈ Finset.range s.length,
              (if i = j then 1 else 0) * s.getD j 0 = s.getD i 0 := by
            have : ∀ j, (if i = j then 1 else 0) * s.getD j 0 =
                if i = j then s.getD j 0 else 0 := by
              intro j
              by_cases hij : i = j <;> simp [hij]
            simp only [this]
            rw [Finset.sum_ite_eq]
            simp [Finset.mem_range.mpr hi]
          rw [hsplit, hone]
          simp only [Bool.false_eq_true, if_false]
          omega
      | opK =>
          simp only [List.countP_cons, hk]
          simp only [show ∀ j, (NodeKind.opK = NodeKind.feature j) = False by
            intro j; simp, decide_False, Bool.false_eq_true, if_false, if_true,
            add_zero]
          omega
      | varK idx =>
          simp only [List.countP_cons, hk]
          simp only [show ∀ j, (NodeKind.varK idx = NodeKind.feature j) = False by
            intro j; simp, decide_False, Bool.false_eq_true, if_false, if_true,
            add_zero]
          omega
      | constK =>
          simp only [List.countP_cons, hk]
          simp only [show ∀ j, (NodeKind.constK = NodeKind.feature j) = False by
            intro j; simp, decide_False, Bool.false_eq_true, if_false, if_true,
            add_zero]
          omega

theorem sum_sizes_eq_range (s : List Nat) :
    s.sum = ∑ j ∈ Finset.range s.length, s.getD j 0 := by
  induction s with
  | nil => simp
  | cons a t ih =>
      rw [List.sum_cons, List.length_cons, Finset.sum_range_succ']
      simp only [List.getD_cons_succ, List.getD_cons_zero]
      omega

theorem inlined_core (s : List Nat) (L : List Node)
    (hpos : ∀ j, j < s.length → 0 < s.getD j 0)
    (hvalid : ∀ n ∈ L, ∀ j, n.kind = NodeKind.feature j → j < s.length)
    (href : ∀ j, j < s.length →
      1 ≤ L.countP (fun n => decide (n.kind = NodeKind.feature j))) :
    s.sum ≤ (L.map (fun node =>
      match node.kind with
      | NodeKind.feature i => s.getD i 0
      | _ => 1)).sum ∧
    ((L.map (fun node =>
      match node.kind with
      | NodeKind.feature i => s.getD i 0
      | _ => 1)).sum = s.sum ↔
      (∀ j, j < s.length →
        L.countP (fun n => decide (n.kind = NodeKind.feature j)) = 1) ∧
      ∀ n ∈ L, ∃ j, n.kind = NodeKind.feature j) := by
  have hdec := nodeSum_decomp s L hvalid
  have hA := sum_sizes_eq_range s
  have hle : (∑ j ∈ Finset.range s.length, s.getD j 0) ≤
      ∑ j ∈ Finset.range s.length,
        L.countP (fun n => decide (n.kind = NodeKind.feature j)) * s.getD j 0 :=
    Finset.sum_le_sum (fun j hj =>
      Nat.le_mul_of_pos_left _ (href j (Finset.mem_range.mp hj)))
  constructor
  · rw [hdec, hA]
    omega
  · rw [hdec, hA]
    constructor
    · intro heq
      have hm : L.countP (fun n =>
          match n.kind with
          | NodeKind.feature _ => false
          | _ => true) = 0 := by omega
      have hsums : (∑ j ∈ Finset.range s.length, s.getD j 0) =
          ∑ j ∈ Finset.range s.length,
            L.countP (fun n => decide (n.kind = NodeKind.feature j)) *
              s.getD j 0 := by omega
      have hpt := (Finset.sum_eq_sum_iff_of_le (fun j hj =>
        Nat.le_mul_of_pos_left _ (href j (Finset.mem_range.mp hj)))).mp hsums
      refine ⟨?_, ?_⟩
      · intro j hj
        have h1 := (hpt j (Finset.mem_range.mpr hj)).symm
        exact Nat.eq_of_mul_eq_mul_right (hpos j hj)
          (h1.trans (one_mul (s.getD j 0)).symm)
      · intro n hn
        have h2 := List.countP_eq_zero.mp hm n hn
        cases hk : n.kind with
        | feature j => exact ⟨j, rfl⟩
        | opK => rw [hk] at h2; simp at h2
        | varK idx => rw [hk] at h2; simp at h2
        | constK => rw [hk] at h2; simp at h2
    · rintro ⟨h1, h2⟩
      have hm : L.countP (fun n =>
          match n.kind with
          | NodeKind.feature _ => false
          | _ => true) = 0 := by
        rw [List.countP_eq_zero]
        intro n hn
        obtain ⟨j, hj⟩ := h2 n hn
        rw [hj]
        simp
      have hsums : (∑ j ∈ Finset.range s.length,
          L.countP (fun n => decide (n.kind = NodeKind.feature j)) *
            s.getD j 0) = ∑ j ∈ Finset.range s.length, s.getD j 0 := by
        apply Finset.sum_congr rfl
        intro j hj
        rw [h1 j (Finset.mem_range.mp hj), one_mul]
      omega

/-- C7 (amended): for a multi-tree individual that has at least one
sub-function, no empty sub-function subtree, only in-range FeatureNode
references, and every sub-function referenced at least once, the inlined
complexity is at least the sub-counted-once complexity, with equality iff
every sub-function is referenced exactly once and every node of every
sup_function is a FeatureNode. -/
theorem C7_inlined_ge_counted_once (fitness : String) (d : MultiTreeData)
    (hf : fitness ≠ "gp_autoencoder_fitness")
    (hsub : 0 < d.num_sub_functions)
    (hne : ∀ f ∈ d.sub_functions, f.GetSubtree ≠ [])
    (hvalid : ∀ n ∈ supNodes d, ∀ j, n.kind = NodeKind.feature j →
      j < d.num_sub_functions)
    (href : ∀ j, j < d.num_sub_functions → 1 ≤ refCount d j) :
    EvaluateLength "gp_autoencoder_fitness" (IndRep.multi d) ≤
      EvaluateLength fitness (IndRep.multi d) ∧
    (EvaluateLength fitness (IndRep.multi d) =
        EvaluateLength "gp_autoencoder_fitness" (IndRep.multi d) ↔
      ((∀ j, j < d.num_sub_functions → refCount d j = 1) ∧
        ∀ n ∈ supNodes d, ∃ j, n.kind = NodeKind.feature j)) := by
  have hslen : (d.sub_functions.map (fun x => x.GetSubtree.length)).length =
      d.num_sub_functions := by
    simp [MultiTreeData.num_sub_functions]
  have hfun : (fun node : Node =>
      match node.kind with
      | NodeKind.feature i =>
          if 0 < d.num_sub_functions then
            (d.sub_functions.map (fun x : TreeFun => x.GetSubtree.length)).getD i 0
          else 1
      | _ => 1) = (fun node : Node =>
      match node.kind with
      | NodeKind.feature i =>
          (d.sub_functions.map (fun x : TreeFun => x.GetSubtree.length)).getD i 0
      | _ => 1) := by
    funext node
    cases hk : node.kind <;> simp [hk, hsub]
  have hw : EvaluateLength fitness (IndRep.multi d) =
      ((supNodes d).map (fun node =>
        match node.kind with
        | NodeKind.feature i =>
            (d.sub_functions.map (fun x => x.GetSubtree.length)).getD i 0
        | _ => 1)).sum := by
    rw [EvaluateLength_inlined fitness d hf, hfun]
  have hpos : ∀ j, j < (d.sub_functions.map
      (fun x => x.GetSubtree.length)).length →
      0 < (d.sub_functions.map (fun x => x.GetSubtree.length)).getD j 0 := by
    intro j hj
    have hj2 : j < d.sub_functions.length := by simpa using hj
    rw [List.getD_eq_getElem _ 0 hj]
    simp only [List.getElem_map]
    exact List.length_pos.mpr (hne _ (List.getElem_mem hj2))
  have hvalid2 : ∀ n ∈ supNodes d, ∀ j, n.kind = NodeKind.feature j →
      j < (d.sub_functions.map (fun x => x.GetSubtree.length)).length := by
    intro n hn j hk
    rw [hslen]
    exact hvalid n hn j hk
  have href2 : ∀ j, j < (d.sub_functions.map
      (fun x => x.GetSubtree.length)).length →
      1 ≤ (supNodes d).countP (fun n => decide (n.kind = NodeKind.feature j)) := by
    intro j hj
    rw [hslen] at hj
    exact href j hj
  obtain ⟨hle, hiff⟩ := inlined_core
    (d.sub_functions.map (fun x => x.GetSubtree.length)) (supNodes d)
    hpos hvalid2 href2
  rw [hslen] at hiff
  constructor
  · rw [hw, EvaluateLength_counted_once]
    exact hle
  · rw [hw, EvaluateLength_counted_once]
    exact hiff

/-- A FeatureNode leaf referencing sub-function 0. -/
def fNode : Node := { arity := 0, is_not_arithmetic := false, kind := NodeKind.feature 0 }

/-- A multi-tree individual whose three-node sub-function is never
referenced: its sole sup_function is a single ordinary node. -/
def c7bad : MultiTreeData :=
  { sup_functions := [{ GetSubtree := [cNode]
                        Count_n_nacomp := 0
                        ls_a := FV.fin 0
                        ls_b := FV.fin 1 }]
    sub_functions := [{ GetSubtree := [cNode, cNode, cNode]
                        Count_n_nacomp := 0
                        ls_a := FV.fin 0
                        ls_b := FV.fin 1 }]
    GetOutput := fun _ => [] }

/-- Counterexample to C7 as stated: with an unreferenced sub-function the
inlined complexity (1) is strictly below the sub-counted-once complexity
(3), and although every sub-function is referenced at most once, the two
complexities are not equal — both the inequality and the equality
condition of the claim fail on this individual. -/
theorem C7_counterexample :
    EvaluateLength "autoencoder_teacher_fitness" (IndRep.multi c7bad) = 1 ∧
    EvaluateLength "gp_autoencoder_fitness" (IndRep.multi c7bad) = 3 ∧
    ¬ (EvaluateLength "gp_autoencoder_fitness" (IndRep.multi c7bad) ≤
        EvaluateLength "autoencoder_teacher_fitness" (IndRep.multi c7bad)) ∧
    (∀ j, refCount c7bad j ≤ 1) ∧
    EvaluateLength "autoencoder_teacher_fitness" (IndRep.multi c7bad) ≠
      EvaluateLength "gp_autoencoder_fitness" (IndRep.multi c7bad) := by
  refine ⟨by decide, by decide, by decide, ?_, by decide⟩
  intro j
  have h0 : refCount c7bad j = 0 := by
    simp [refCount, supNodes, c7bad, cNode]
  omega

/-- A multi-tree individual whose sole sup_function is exactly one
FeatureNode referencing its sole (three-node) sub-function. -/
def c7good : MultiTreeData :=
  { sup_functions := [{ GetSubtree := [fNode]
                        Count_n_nacomp := 0
                        ls_a := FV.fin 0
                        ls_b := FV.fin 1 }]
    sub_functions := [{ GetSubtree := [cNode, cNode, cNode]
                        Count_n_nacomp := 0
                        ls_a := FV.fin 0
                        ls_b := FV.fin 1 }]
    GetOutput := fun _ => [] }

/-- Witness for the amended C7 on a concrete well-referenced individual. -/
theorem C7_witness :
    EvaluateLength "gp_autoencoder_fitness" (IndRep.multi c7good) ≤
      EvaluateLength "autoencoder_teacher_fitness" (IndRep.multi c7good) ∧
    (EvaluateLength "autoencoder_teacher_fitness" (IndRep.multi c7good) =
        EvaluateLength "gp_autoencoder_fitness" (IndRep.multi c7good) ↔
      ((∀ j, j < c7good.num_sub_functions → refCount c7good j = 1) ∧
        ∀ n ∈ supNodes c7good, ∃ j, n.kind = NodeKind.feature j)) := by
  apply C7_inlined_ge_counted_once "autoencoder_teacher_fitness" c7good
  · decide
  · decide
  · decide
  · intro n hn j hk
    simp [supNodes, c7good] at hn
    rw [hn] at hk
    simp [fNode] at hk
    simp [MultiTreeData.num_sub_functions, c7good]
    omega
  · intro j hj
    have hj0 : j = 0 := by
      simpa [MultiTreeData.num_sub_functions, c7good] using hj
    rw [hj0]
    simp [refCount, supNodes, c7good, fNode]
